import Mathlib

/-!
Shallow embedding of the translation-orchestration core of the
my-chrome-translate extension (src/contentScript.js, which contains both the
content script and the embedded MV3 background service worker).

JavaScript strings are modelled as Lean `String`; absent-or-wrong-typed JSON
fields are `Option`; a JS `Map` is an association list read through first-match
lookup (cons-on-set, which has the same get/has semantics as `Map.set`);
rejected promises / thrown exceptions of a fallible routine are the `none`
(or `.error`) branch of its result.  Each network `fetch` performed by a
routine is recorded in an explicit call log, and the HTTP world is a
deterministic oracle mapping each request to its outcome.
-/

/-- Whitespace per the JS `\s` class and `String.prototype.trim`
(space, tab, LF, VT, FF, CR, NBSP, U+1680, U+2000..U+200A, U+2028, U+2029,
U+202F, U+205F, U+3000, U+FEFF). -/
def jsIsWhitespace (c : Char) : Bool :=
  c = ' ' || c = '\t' || c = '\n' || c = '\x0b' || c = '\x0c' || c = '\r' ||
  c = '\u00a0' || c = '\u1680' || (0x2000 ≤ c.toNat && c.toNat ≤ 0x200a) ||
  c = '\u2028' || c = '\u2029' || c = '\u202f' || c = '\u205f' ||
  c = '\u3000' || c = '\ufeff'

/-- Model of JS `text.trim()`: strip whitespace from both ends. -/
def jsTrim (s : String) : String :=
  ⟨((s.data.dropWhile jsIsWhitespace).reverse.dropWhile jsIsWhitespace).reverse⟩

/-- ASCII lowering of one character, the fragment of JS `toLowerCase()`
exercised by this extension (inputs are English words). -/
def jsCharLower (c : Char) : Char :=
  if 'A' ≤ c && c ≤ 'Z' then Char.ofNat (c.toNat + 32) else c

/-- Model of JS `text.toLowerCase()`. -/
def jsToLower (s : String) : String := ⟨s.data.map jsCharLower⟩

/-- JS `a || b` for an optional string field: the default is taken when the
field is absent (or not a string) or is the falsy empty string. -/
def jsOrStr (v : Option String) (dflt : String) : String :=
  match v with
  | some s => if s = "" then dflt else s
  | none => dflt

/-- Result of one successful translation provider call
(`{translation, provider}` objects built in `translateWithLibre` /
`translateWithMyMemory`). -/
structure TransResult where
  translation : String
  provider : String
deriving DecidableEq, Repr

/-- Parsed dictionary entry `{ipa, audio}` returned by `fetchDictionary`
(each field `null`-able, modelled with `Option`). -/
structure DictEntry where
  ipa : Option String
  audio : Option String
deriving DecidableEq, Repr

/-- Outcome of one `fetch`: a rejected promise (network failure, or a body
that fails JSON parsing) or a response carrying `response.ok` and the decoded
JSON body. -/
inductive FetchResult (α : Type) where
  | netError
  | response (ok : Bool) (body : α)
deriving DecidableEq, Repr

/-- JSON body shape read by `translateWithLibre`: the three alias fields the
code probes, each possibly absent (or non-string). -/
structure LibreResponse where
  translatedText : Option String
  translation : Option String
  translated_text : Option String
deriving DecidableEq, Repr

/-- One element of MyMemory's `matches` array. -/
structure MyMatch where
  translation : Option String
deriving DecidableEq, Repr

/-- JSON body shape read by `translateWithMyMemory`.
`responseTranslatedText` flattens the optional chain
`data?.responseData?.translatedText`; `matchList` models the `matches` field,
`none` when it is absent or not an array. -/
structure MyMemoryResponse where
  responseTranslatedText : Option String
  matchList : Option (List MyMatch)
deriving DecidableEq, Repr

/-- One element of the dictionary API's `phonetics` array: the `text` and
`audio` fields, each `none` when absent or not a string. -/
structure Phonetic where
  text : Option String
  audio : Option String
deriving DecidableEq, Repr

/-- First element of the dictionary API's response array: the `phonetics`
field, `none` when absent or not an array; array elements may be `null`. -/
structure DictApiEntry where
  phonetics : Option (List (Option Phonetic))
deriving DecidableEq, Repr

/-- A network call issued by the worker, identifying the provider and the
exact text sent. -/
inductive NetCall where
  | libreCall (text : String)
  | mymemoryCall (text : String)
  | dictCall (word : String)
deriving DecidableEq, Repr

/-- Deterministic HTTP oracle: what each endpoint answers for each text.
The dictionary body is `none` when the JSON decodes to a non-array value. -/
structure Network where
  libre : String → FetchResult LibreResponse
  mymemory : String → FetchResult MyMemoryResponse
  dict : String → FetchResult (Option (List (Option DictApiEntry)))

/-- Provider key of a call, for call counting ("DICT" for dictionary). -/
def callKey : NetCall → String
  | .libreCall _ => "libre"
  | .mymemoryCall _ => "mymemory"
  | .dictCall _ => "DICT"

/-- Number of calls made to a given provider key in a call log. -/
def countCallsTo (p : String) (calls : List NetCall) : Nat :=
  (calls.filter (fun c => callKey c = p)).length

/-- First-match lookup in an association list, the semantics of
`Map.has`/`Map.get`. -/
def mapGet {α : Type} : List (String × α) → String → Option α
  | [], _ => none
  | e :: rest, k => if e.1 = k then some e.2 else mapGet rest k

/-- Resolved user settings (`DEFAULT_SETTINGS` shape in background worker). -/
structure Settings where
  provider : String
  theme : String
  ttsRate : ℚ
  ttsVoice : String
  showPronounce : Bool
deriving DecidableEq, Repr

/-- Raw `result.settings` object from `chrome.storage.sync`: every field may
be absent or of the wrong type.  For `ttsRate`, `none` is absent/non-number
and `some none` is `NaN`. -/
structure StoredSettings where
  provider : Option String
  theme : Option String
  ttsRate : Option (Option ℚ)
  ttsVoice : Option String
  showPronounce : Option Bool
deriving DecidableEq, Repr

/-- Outcome of the `chrome.storage.sync.get` read: a failure
(`chrome.runtime.lastError` set, or the call threw) or a result whose
`settings` key may be absent. -/
inductive StorageOutcome where
  | readError
  | ok (settings : Option StoredSettings)
deriving DecidableEq, Repr

/-- The hardcoded `DEFAULT_SETTINGS` object of the background worker. -/
def DEFAULT_SETTINGS : Settings :=
  { provider := "auto", theme := "auto", ttsRate := 1, ttsVoice := "auto",
    showPronounce := true }

/-- Embedding of `getUserSettings`: on any read failure resolve with the
defaults, otherwise apply the per-field fallbacks to `result.settings || {}`. -/
def getUserSettings : StorageOutcome → Settings
  | .readError => DEFAULT_SETTINGS
  | .ok stored0 =>
    let stored := stored0.getD
      { provider := none, theme := none, ttsRate := none, ttsVoice := none,
        showPronounce := none }
    { provider := jsOrStr stored.provider DEFAULT_SETTINGS.provider,
      theme := jsOrStr stored.theme DEFAULT_SETTINGS.theme,
      ttsRate := match stored.ttsRate with
        | some (some x) => x
        | _ => DEFAULT_SETTINGS.ttsRate,
      ttsVoice := jsOrStr stored.ttsVoice DEFAULT_SETTINGS.ttsVoice,
      showPronounce := match stored.showPronounce with
        | some b => b
        | none => DEFAULT_SETTINGS.showPronounce }

/-- Embedding of `getProvidersOrder`. -/
def getProvidersOrder : String → List String
  | "libre" => ["libre"]
  | "mymemory" => ["mymemory"]
  | _ => ["libre", "mymemory"]

/-- JS `a || b || c` over optional string fields: first present non-empty
string, `none` when all are absent or empty (falsy). -/
def firstTruthy : List (Option String) → Option String
  | [] => none
  | some s :: rest => if s = "" then firstTruthy rest else some s
  | none :: rest => firstTruthy rest

/-- Embedding of `translateWithLibre` applied to the fetch outcome: `none`
models a thrown error (HTTP failure, or no alias field holding a truthy
translation). -/
def translateWithLibre (r : FetchResult LibreResponse) : Option TransResult :=
  match r with
  | .netError => none
  | .response ok body =>
    if !ok then none
    else
      match firstTruthy [body.translatedText, body.translation, body.translated_text] with
      | none => none
      | some t => some { translation := t, provider := "LibreTranslate" }

/-- Embedding of `translateWithMyMemory` applied to the fetch outcome.  The
candidate from `matches` is `matches[0].translation` when the array is
non-empty, and the falsy `""` otherwise. -/
def translateWithMyMemory (r : FetchResult MyMemoryResponse) : Option TransResult :=
  match r with
  | .netError => none
  | .response ok body =>
    if !ok then none
    else
      let fromMatches : Option String :=
        match body.matchList with
        | some (m :: _) => m.translation
        | _ => some ""
      match firstTruthy [body.responseTranslatedText, fromMatches] with
      | none => none
      | some t => some { translation := t, provider := "MyMemory" }

/-- Scan of `fetchDictionary`'s first loop: the first phonetics element that
is non-null and has a string `text` with truthy (non-empty) trim yields the
trimmed transcription. -/
def firstIpa : List (Option Phonetic) → Option String
  | [] => none
  | p :: rest =>
    match p with
    | some q =>
      match q.text with
      | some s => if jsTrim s = "" then firstIpa rest else some (jsTrim s)
      | none => firstIpa rest
    | none => firstIpa rest

/-- Scan of `fetchDictionary`'s second loop: the first phonetics element that
is non-null and has a string `audio` with truthy (non-empty) trim yields the
trimmed audio URL. -/
def firstAudio : List (Option Phonetic) → Option String
  | [] => none
  | p :: rest =>
    match p with
    | some q =>
      match q.audio with
      | some s => if jsTrim s = "" then firstAudio rest else some (jsTrim s)
      | none => firstAudio rest
    | none => firstAudio rest

/-- Embedding of `fetchDictionary word`.  The word is lowercased and fetched;
`.error` models every thrown error (network/JSON failure, non-2xx status,
body not a non-empty array); `.ok none` models the `return null` taken when
neither a transcription nor an audio link is found.  The second component is
the network call log of the routine (the fetch is issued before any parsing,
so it appears in every branch). -/
def fetchDictionary (net : Network) (word : String) :
    Except Unit (Option DictEntry) × List NetCall :=
  let lower := jsToLower word
  let calls := [NetCall.dictCall lower]
  match net.dict lower with
  | .netError => (.error (), calls)
  | .response ok body =>
    if !ok then (.error (), calls)
    else
      match body with
      | none => (.error (), calls)
      | some [] => (.error (), calls)
      | some (entry0 :: _) =>
        let phonetics :=
          match entry0 with
          | some e => e.phonetics.getD []
          | none => []
        match firstIpa phonetics, firstAudio phonetics with
        | none, none => (.ok none, calls)
        | ipa, audio => (.ok (some { ipa := ipa, audio := audio }), calls)

/-- Translation cache key `providerKey + "::" + text`. -/
def cacheKey (p text : String) : String := p ++ "::" ++ text

/-- One iteration body of the provider loop in `handleTranslateAndDefine`:
dispatch on the provider key, returning the call result (`none` = the
provider threw) and the network calls issued.  An unknown key leaves
`result = null` and performs no call. -/
def callProvider (net : Network) (p text : String) :
    Option TransResult × List NetCall :=
  if p = "libre" then (translateWithLibre (net.libre text), [NetCall.libreCall text])
  else if p = "mymemory" then
    (translateWithMyMemory (net.mymemory text), [NetCall.mymemoryCall text])
  else (none, [])

/-- Outcome of the translation phase: the result (if any provider produced
one), the updated translation cache, and the network calls issued. -/
structure TransOut where
  result : Option TransResult
  cache : List (String × TransResult)
  calls : List NetCall
deriving DecidableEq, Repr

/-- Embedding of the provider loop of `handleTranslateAndDefine`: walk the
ordered provider list; a cache hit ends the loop with the cached value and no
call; otherwise the provider is called, a truthy translation is cached and
ends the loop, and any failure (throw, or falsy translation) moves on to the
next provider. -/
def tryProviders (net : Network) (text : String) :
    List String → List (String × TransResult) → TransOut
  | [], cache => { result := none, cache := cache, calls := [] }
  | p :: rest, cache =>
    match mapGet cache (cacheKey p text) with
    | some cached => { result := some cached, cache := cache, calls := [] }
    | none =>
      let c := callProvider net p text
      match c.1 with
      | some r =>
        if r.translation = "" then
          let o := tryProviders net text rest cache
          { result := o.result, cache := o.cache, calls := c.2 ++ o.calls }
        else
          { result := some r, cache := (cacheKey p text, r) :: cache, calls := c.2 }
      | none =>
        let o := tryProviders net text rest cache
        { result := o.result, cache := o.cache, calls := c.2 ++ o.calls }

/-- Outcome of the dictionary phase: the entry attached to the response (if
any), the updated dictionary cache, and the network calls issued. -/
structure DictOut where
  result : Option DictEntry
  cache : List (String × DictEntry)
  calls : List NetCall
deriving DecidableEq, Repr

/-- Embedding of the dictionary block of `handleTranslateAndDefine`: only
when `isWord`; a hit on key `"DICT::" + text.toLowerCase()` is returned
directly; otherwise `fetchDictionary` is consulted, a non-null entry is
cached and attached, and a thrown error or null entry leaves the cache
untouched and `dict = null`. -/
def dictPhase (net : Network) (text : String) (isWord : Bool)
    (dcache : List (String × DictEntry)) : DictOut :=
  if isWord then
    let dictKey := "DICT::" ++ jsToLower text
    match mapGet dcache dictKey with
    | some cached => { result := some cached, cache := dcache, calls := [] }
    | none =>
      let f := fetchDictionary net text
      match f.1 with
      | .ok (some r) =>
        { result := some r, cache := (dictKey, r) :: dcache, calls := f.2 }
      | _ => { result := none, cache := dcache, calls := f.2 }
  else { result := none, cache := dcache, calls := [] }

/-- Payload of a `TRANSLATE_AND_DEFINE` message. -/
structure Msg where
  text : String
  isWord : Bool
deriving DecidableEq, Repr

/-- Response object sent back by the background worker: the success shape
carries no `error` field and the failure shape carries the fixed message. -/
structure HandleResult where
  success : Bool
  translation : Option String
  provider : Option String
  dict : Option DictEntry
  error : Option String
deriving DecidableEq, Repr

/-- The two session-lifetime caches of the background worker. -/
structure CacheState where
  translationCache : List (String × TransResult)
  dictCache : List (String × DictEntry)
deriving DecidableEq, Repr

/-- Complete outcome of one `handleTranslateAndDefine` run: the response,
the caches after the run, and the network calls issued (in order). -/
structure StepOut where
  result : HandleResult
  state : CacheState
  calls : List NetCall
deriving DecidableEq, Repr

/-- The fixed user-facing failure message. -/
def FIXED_FAIL_MSG : String := "翻译失败，请稍后重试。"

/-- Embedding of `handleTranslateAndDefine`: resolve settings, derive the
provider order, run the provider loop, run the dictionary phase, then build
the response — failure shape with the fixed message when no provider
produced a translation (the dictionary result is still attached), success
shape otherwise. -/
def handleTranslateAndDefine (net : Network) (o : StorageOutcome)
    (st : CacheState) (msg : Msg) : StepOut :=
  let settings := getUserSettings o
  let order := getProvidersOrder settings.provider
  let t := tryProviders net msg.text order st.translationCache
  let d := dictPhase net msg.text msg.isWord st.dictCache
  match t.result with
  | none =>
    { result := { success := false, translation := none, provider := none,
                  dict := d.result, error := some FIXED_FAIL_MSG },
      state := { translationCache := t.cache, dictCache := d.cache },
      calls := t.calls ++ d.calls }
  | some r =>
    { result := { success := true, translation := some r.translation,
                  provider := some r.provider, dict := d.result, error := none },
      state := { translationCache := t.cache, dictCache := d.cache },
      calls := t.calls ++ d.calls }

/-- An incoming runtime message as the listener sees it: `invalid` when the
message is falsy or its `type` is not a string. -/
inductive RawMessage where
  | invalid
  | typed (type : String) (text : String) (isWord : Bool)
deriving DecidableEq, Repr

/-- The fixed failure response built in the listener's `.catch` handler. -/
def fixedFailureResponse : HandleResult :=
  { success := false, translation := none, provider := none, dict := none,
    error := some FIXED_FAIL_MSG }

/-- Embedding of the `chrome.runtime.onMessage` listener: non-matching
messages get no response; a `TRANSLATE_AND_DEFINE` message always gets
exactly one response — the orchestration result when its promise resolves
(`run = .ok r`), and the fixed failure response when it rejects. -/
def onMessageListener (m : RawMessage) (run : Except Unit HandleResult) :
    Option HandleResult :=
  match m with
  | .invalid => none
  | .typed ty _ _ =>
    if ty = "TRANSLATE_AND_DEFINE" then
      some (match run with
        | .ok r => r
        | .error _ => fixedFailureResponse)
    else none

/-- Character class stripped by `isProbablyEnglish` (the JS regex
`[\s,，。.!?？:：;；"'“”'()（）\[\]{}]`): whitespace plus common ASCII and
CJK punctuation. -/
def isStripChar (c : Char) : Bool :=
  jsIsWhitespace c || c = ',' || c = '，' || c = '。' || c = '.' || c = '!' ||
  c = '?' || c = '？' || c = ':' || c = '：' || c = ';' || c = '；' ||
  c = '"' || c = '\'' || c = '“' || c = '”' || c = '(' || c = ')' ||
  c = '（' || c = '）' || c = '[' || c = ']' || c = '\x7b' || c = '\x7d'

/-- An ASCII letter, the JS class `[A-Za-z]`. -/
def isEnglishLetter (c : Char) : Bool :=
  ('A' ≤ c && c ≤ 'Z') || ('a' ≤ c && c ≤ 'z')

/-- Embedding of `isProbablyEnglish`: after stripping whitespace/punctuation,
non-empty and at least 60% ASCII letters with at least one letter.  The JS
float comparison `letters / total >= 0.6` is the exact rational comparison
`5 * letters ≥ 3 * total` (the double rounding cannot cross the threshold at
these magnitudes). -/
def isProbablyEnglish (text : String) : Bool :=
  let cleaned := text.data.filter (fun c => !isStripChar c)
  if cleaned.isEmpty then false
  else
    let letters := (cleaned.filter isEnglishLetter).length
    let total := cleaned.length
    if total = 0 then false
    else letters > 0 && 5 * letters ≥ 3 * total

/-- Embedding of `isSingleWord`: the trimmed text matches
`^[A-Za-z][A-Za-z\-']*$`. -/
def isSingleWord (text : String) : Bool :=
  match (jsTrim text).data with
  | [] => false
  | c :: rest =>
    isEnglishLetter c &&
    rest.all (fun d => isEnglishLetter d || d = '-' || d = '\'')

/-- Embedding of the guard chain of `triggerTranslateFromSelection` up to
`chrome.runtime.sendMessage`: no message is sent for a collapsed selection,
for text whose trim is empty, for text not detected as English, or when the
300 ms same-text debounce fires; otherwise the trimmed text and its
single-word flag are sent.  (Overlay positioning and speech cancellation have
no effect on the message and are omitted.) -/
def triggerTranslateFromSelection (selectionCollapsed : Bool)
    (selectionText : String) (debounced : Bool) : Option Msg :=
  if selectionCollapsed then none
  else
    let text := jsTrim selectionText
    if text = "" then none
    else if !isProbablyEnglish text then none
    else if debounced then none
    else some { text := text, isWord := isSingleWord text }

/-- End-to-end pipeline from a selection to the background worker: the
orchestrator runs only when the trigger actually sent a message. -/
def processSelection (net : Network) (o : StorageOutcome) (st : CacheState)
    (selectionCollapsed : Bool) (selectionText : String) (debounced : Bool) :
    Option StepOut :=
  (triggerTranslateFromSelection selectionCollapsed selectionText debounced).map
    (handleTranslateAndDefine net o st)

/-- Spec-side predicate: a phonetics element exposes a non-empty (after
trimming) transcription string. -/
def hasIpaText (p : Option Phonetic) : Bool :=
  match p with
  | some q =>
    match q.text with
    | some s => !(jsTrim s = "")
    | none => false
  | none => false

/-- Spec-side predicate: a phonetics element exposes a non-empty (after
trimming) audio URL. -/
def hasAudioUrl (p : Option Phonetic) : Bool :=
  match p with
  | some q =>
    match q.audio with
    | some s => !(jsTrim s = "")
    | none => false
  | none => false

/-- Modelled from the spec's words, for comparison with the code's scan: the
`ipa` of a phonetics list is the trimmed transcription of the first sub-entry
exposing a non-empty transcription string. -/
def specIpa (ps : List (Option Phonetic)) : Option String :=
  (ps.find? hasIpaText).bind fun p =>
    match p with
    | some q => q.text.map jsTrim
    | none => none

/-- Modelled from the spec's words, for comparison with the code's scan: the
audio URL of a phonetics list is the trimmed audio URL of the first sub-entry
exposing a non-empty one. -/
def specAudio (ps : List (Option Phonetic)) : Option String :=
  (ps.find? hasAudioUrl).bind fun p =>
    match p with
    | some q => q.audio.map jsTrim
    | none => none

/-- Display name each provider key's routine stamps into its result
(`provider: "LibreTranslate"` / `provider: "MyMemory"`). -/
def providerDisplay : String → String
  | "libre" => "LibreTranslate"
  | "mymemory" => "MyMemory"
  | s => s

/-- Well-formedness of the translation cache: an entry reachable under a
provider's key carries that provider's display name and a non-empty
translation.  Holds for the empty cache and is preserved by the orchestrator
(only successful, truthy results are stored). -/
def transCacheWF (c : List (String × TransResult)) : Prop :=
  ∀ text r,
    (mapGet c (cacheKey "libre" text) = some r →
      r.provider = "LibreTranslate" ∧ r.translation ≠ "") ∧
    (mapGet c (cacheKey "mymemory" text) = some r →
      r.provider = "MyMemory" ∧ r.translation ≠ "")

/-- Demo oracle: every endpoint is down. -/
def netAllDown : Network :=
  { libre := fun _ => .netError, mymemory := fun _ => .netError,
    dict := fun _ => .netError }

/-- Demo oracle: both translation providers are down but the dictionary
answers with a transcription. -/
def netDictOnly : Network :=
  { libre := fun _ => .netError, mymemory := fun _ => .netError,
    dict := fun _ => .response true (some [some ⟨some [some ⟨some "/x/", none⟩]⟩]) }

/-- Demo oracle: LibreTranslate answers, everything else is down. -/
def netLibreUp : Network :=
  { libre := fun _ => .response true ⟨some "你好", none, none⟩,
    mymemory := fun _ => .netError,
    dict := fun _ => .netError }

/-- Demo oracle carrying the spec's dictionary-extraction example
`[{text: ""}, {audio: "a.mp3"}, {text: "/tɛst/"}]`. -/
def netDictExample : Network :=
  { libre := fun _ => .netError, mymemory := fun _ => .netError,
    dict := fun _ => .response true (some [some ⟨some [
      some ⟨some "", none⟩, some ⟨none, some "a.mp3"⟩,
      some ⟨some "/tɛst/", none⟩]⟩]) }


/-- Translation phase of one request, as invoked by
`handleTranslateAndDefine` (settings resolution composed with the provider
loop). -/
def transPhase (net : Network) (o : StorageOutcome) (st : CacheState)
    (msg : Msg) : TransOut :=
  tryProviders net msg.text (getProvidersOrder (getUserSettings o).provider)
    st.translationCache

/-- Dictionary phase of one request, as invoked by
`handleTranslateAndDefine`. -/
def dictPhaseOf (net : Network) (st : CacheState) (msg : Msg) : DictOut :=
  dictPhase net msg.text msg.isWord st.dictCache

theorem libre_mymemory_key_ne (t t' : String) :
    cacheKey "libre" t ≠ cacheKey "mymemory" t' := by
  intro h
  unfold cacheKey at h
  have h2 := congrArg String.data h
  rw [String.data_append, String.data_append, String.data_append,
    String.data_append] at h2
  have e1 : ("libre" : String).data = ['l', 'i', 'b', 'r', 'e'] := by decide
  have e2 : ("mymemory" : String).data =
      ['m', 'y', 'm', 'e', 'm', 'o', 'r', 'y'] := by decide
  rw [e1, e2] at h2
  simp at h2

theorem cacheKey_ne_of_ne {p q : String} (t t' : String)
    (hp : p = "libre" ∨ p = "mymemory") (hq : q = "libre" ∨ q = "mymemory")
    (hne : p ≠ q) : cacheKey p t ≠ cacheKey q t' := by
  rcases hp with hp | hp <;> rcases hq with hq | hq <;> subst hp <;> subst hq
  · exact absurd rfl hne
  · exact libre_mymemory_key_ne t t'
  · exact fun h => libre_mymemory_key_ne t' t h.symm
  · exact absurd rfl hne

theorem firstTruthy_ne_empty {l : List (Option String)} {s : String}
    (h : firstTruthy l = some s) : s ≠ "" := by
  induction l with
  | nil => simp [firstTruthy] at h
  | cons hd tl ih =>
    match hd with
    | none => exact ih (by simpa [firstTruthy] using h)
    | some v =>
      by_cases hv : v = ""
      · subst hv
        exact ih (by simpa [firstTruthy] using h)
      · rw [firstTruthy, if_neg hv] at h
        cases h
        exact hv

theorem translateWithLibre_result {fr : FetchResult LibreResponse} {r : TransResult}
    (h : translateWithLibre fr = some r) :
    r.provider = "LibreTranslate" ∧ r.translation ≠ "" := by
  unfold translateWithLibre at h
  split at h
  · exact absurd h (by simp)
  · split at h
    · exact absurd h (by simp)
    · split at h
      · exact absurd h (by simp)
      · rename_i t hft
        cases h
        exact ⟨rfl, firstTruthy_ne_empty hft⟩

theorem translateWithMyMemory_result {fr : FetchResult MyMemoryResponse} {r : TransResult}
    (h : translateWithMyMemory fr = some r) :
    r.provider = "MyMemory" ∧ r.translation ≠ "" := by
  unfold translateWithMyMemory at h
  split at h
  · exact absurd h (by simp)
  · split at h
    · exact absurd h (by simp)
    · split at h <;> dsimp only [] at h <;> split at h
      · exact absurd h (by simp)
      · rename_i hft
        cases h
        exact ⟨rfl, firstTruthy_ne_empty hft⟩
      · exact absurd h (by simp)
      · rename_i hft
        cases h
        exact ⟨rfl, firstTruthy_ne_empty hft⟩

theorem callProvider_result {net : Network} {p text : String} {r : TransResult}
    (h : (callProvider net p text).1 = some r) :
    r.provider = providerDisplay p ∧ r.translation ≠ "" := by
  unfold callProvider at h
  by_cases hl : p = "libre"
  · subst hl
    rw [if_pos rfl] at h
    have := translateWithLibre_result h
    simpa [providerDisplay] using this
  · by_cases hm : p = "mymemory"
    · subst hm
      rw [if_neg hl, if_pos rfl] at h
      have := translateWithMyMemory_result h
      simpa [providerDisplay] using this
    · rw [if_neg hl, if_neg hm] at h
      exact absurd h (by simp)

theorem callProvider_count_other {net : Network} {p q text : String} (hne : q ≠ p) :
    countCallsTo q (callProvider net p text).2 = 0 := by
  unfold callProvider
  by_cases hl : p = "libre"
  · subst hl
    rw [if_pos rfl]
    simp [countCallsTo, callKey, List.filter, Ne.symm hne]
  · by_cases hm : p = "mymemory"
    · subst hm
      rw [if_neg hl, if_pos rfl]
      simp [countCallsTo, callKey, List.filter, Ne.symm hne]
    · rw [if_neg hl, if_neg hm]
      simp [countCallsTo]

theorem callProvider_count_self {net : Network} {p text : String} {r : TransResult}
    (h : (callProvider net p text).1 = some r) :
    countCallsTo p (callProvider net p text).2 = 1 := by
  unfold callProvider at h ⊢
  by_cases hl : p = "libre"
  · subst hl
    rw [if_pos rfl]
    simp [countCallsTo, callKey, List.filter]
  · by_cases hm : p = "mymemory"
    · subst hm
      rw [if_neg hl, if_pos rfl]
      simp [countCallsTo, callKey, List.filter]
    · rw [if_neg hl, if_neg hm] at h
      exact absurd h (by simp)

theorem callProvider_count_le {net : Network} (p q text : String) :
    countCallsTo q (callProvider net p text).2 ≤ if p = q then 1 else 0 := by
  by_cases hpq : p = q
  · subst hpq
    rw [if_pos rfl]
    unfold callProvider
    by_cases hl : p = "libre"
    · subst hl; rw [if_pos rfl]; simp [countCallsTo, callKey, List.filter]
    · by_cases hm : p = "mymemory"
      · subst hm; rw [if_neg hl, if_pos rfl]; simp [countCallsTo, callKey, List.filter]
      · rw [if_neg hl, if_neg hm]; simp [countCallsTo]
  · rw [if_neg hpq]
    exact (callProvider_count_other (fun hq => hpq hq.symm)).le

theorem callProvider_calls_keys {net : Network} (p text : String) :
    ∀ c ∈ (callProvider net p text).2,
      callKey c = "libre" ∨ callKey c = "mymemory" := by
  unfold callProvider
  by_cases hl : p = "libre"
  · subst hl; rw [if_pos rfl]; simp [callKey]
  · by_cases hm : p = "mymemory"
    · subst hm; rw [if_neg hl, if_pos rfl]; simp [callKey]
    · rw [if_neg hl, if_neg hm]; simp

theorem countCallsTo_append (p : String) (a b : List NetCall) :
    countCallsTo p (a ++ b) = countCallsTo p a + countCallsTo p b := by
  unfold countCallsTo
  rw [List.filter_append, List.length_append]

theorem tryProviders_calls_keys (net : Network) (text : String) :
    ∀ (order : List String) (cache : List (String × TransResult)),
      ∀ c ∈ (tryProviders net text order cache).calls,
        callKey c = "libre" ∨ callKey c = "mymemory" := by
  intro order
  induction order with
  | nil => intro cache c hc; simp [tryProviders] at hc
  | cons p rest ih =>
    intro cache c hc
    unfold tryProviders at hc
    rcases hget : mapGet cache (cacheKey p text) with _ | cached <;> rw [hget] at hc
    · rcases hcall : (callProvider net p text).1 with _ | r <;>
        dsimp only [] at hc <;> rw [hcall] at hc <;> dsimp only [] at hc
      · rcases List.mem_append.mp hc with hin | hin
        · exact callProvider_calls_keys p text c hin
        · exact ih cache c hin
      · by_cases he : r.translation = ""
        · rw [if_pos he] at hc
          rcases List.mem_append.mp hc with hin | hin
          · exact callProvider_calls_keys p text c hin
          · exact ih cache c hin
        · rw [if_neg he] at hc
          exact callProvider_calls_keys p text c hc
    · simp at hc

theorem tryProviders_count_le (net : Network) (text q : String) :
    ∀ (order : List String) (cache : List (String × TransResult)),
      countCallsTo q (tryProviders net text order cache).calls ≤ order.count q := by
  intro order
  induction order with
  | nil => intro cache; simp [tryProviders, countCallsTo]
  | cons p rest ih =>
    intro cache
    rw [List.count_cons]
    unfold tryProviders
    rcases hget : mapGet cache (cacheKey p text) with _ | cached <;> dsimp only []
    · rcases hcall : (callProvider net p text).1 with _ | r <;> dsimp only []
      · rw [countCallsTo_append]
        have h1 : countCallsTo q (callProvider net p text).2 ≤ if p = q then 1 else 0 :=
          callProvider_count_le p q text
        have h2 := ih cache
        by_cases hpq : p = q <;> simp [hpq] at h1 ⊢ <;> omega
      · by_cases he : r.translation = ""
        · rw [if_pos he]
          dsimp only []
          rw [countCallsTo_append]
          have h1 : countCallsTo q (callProvider net p text).2 ≤ if p = q then 1 else 0 :=
            callProvider_count_le p q text
          have h2 := ih cache
          by_cases hpq : p = q <;> simp [hpq] at h1 ⊢ <;> omega
        · rw [if_neg he]
          dsimp only []
          have h1 : countCallsTo q (callProvider net p text).2 ≤ if p = q then 1 else 0 :=
            callProvider_count_le p q text
          by_cases hpq : p = q <;> simp [hpq] at h1 ⊢ <;> omega
    · simp [countCallsTo]

theorem tryProviders_hit_no_call (net : Network) (text p : String)
    {r0 : TransResult} :
    ∀ (order : List String) (cache : List (String × TransResult)),
      mapGet cache (cacheKey p text) = some r0 →
      countCallsTo p (tryProviders net text order cache).calls = 0 := by
  intro order
  induction order with
  | nil => intro cache _; simp [tryProviders, countCallsTo]
  | cons q rest ih =>
    intro cache hhit
    unfold tryProviders
    rcases hget : mapGet cache (cacheKey q text) with _ | cached <;> dsimp only []
    · have hqp : p ≠ q := by
        intro he
        rw [he] at hhit
        rw [hhit] at hget
        exact Option.noConfusion hget
      rcases hcall : (callProvider net q text).1 with _ | r <;> dsimp only []
      · rw [countCallsTo_append, callProvider_count_other hqp, ih cache hhit]
      · by_cases he : r.translation = ""
        · rw [if_pos he]
          dsimp only []
          rw [countCallsTo_append, callProvider_count_other hqp, ih cache hhit]
        · rw [if_neg he]
          dsimp only []
          exact callProvider_count_other hqp
    · simp [countCallsTo]

theorem tryProviders_cache_change (net : Network) (text : String) :
    ∀ (order : List String) (cache : List (String × TransResult)),
      order.Nodup →
      (tryProviders net text order cache).cache = cache ∨
      ∃ p r, p ∈ order ∧ mapGet cache (cacheKey p text) = none ∧
        (callProvider net p text).1 = some r ∧ r.translation ≠ "" ∧
        (tryProviders net text order cache).cache = (cacheKey p text, r) :: cache ∧
        (tryProviders net text order cache).result = some r ∧
        countCallsTo p (tryProviders net text order cache).calls = 1 := by
  intro order
  induction order with
  | nil => intro cache _; left; simp [tryProviders]
  | cons q rest ih =>
    intro cache hnd
    have hqrest : q ∉ rest := (List.nodup_cons.mp hnd).1
    have hndr : rest.Nodup := (List.nodup_cons.mp hnd).2
    unfold tryProviders
    rcases hget : mapGet cache (cacheKey q text) with _ | cached <;> dsimp only []
    · rcases hcall : (callProvider net q text).1 with _ | r <;> dsimp only []
      · rcases ih cache hndr with hunch | ⟨p, r, hp, hnone, hc, hne, hcache, hres, hcount⟩
        · left; exact hunch
        · right
          refine ⟨p, r, List.mem_cons_of_mem q hp, hnone, hc, hne, hcache, hres, ?_⟩
          have hpq : p ≠ q := fun he => hqrest (he ▸ hp)
          rw [countCallsTo_append, callProvider_count_other hpq, hcount]
      · by_cases he : r.translation = ""
        · rw [if_pos he]
          dsimp only []
          rcases ih cache hndr with hunch | ⟨p, r', hp, hnone, hc, hne, hcache, hres, hcount⟩
          · left; exact hunch
          · right
            refine ⟨p, r', List.mem_cons_of_mem q hp, hnone, hc, hne, hcache, hres, ?_⟩
            have hpq : p ≠ q := fun heq => hqrest (heq ▸ hp)
            rw [countCallsTo_append, callProvider_count_other hpq, hcount]
        · rw [if_neg he]
          dsimp only []
          right
          exact ⟨q, r, List.mem_cons_self q rest, hget, hcall, he, rfl, rfl,
            callProvider_count_self hcall⟩
    · left; rfl

theorem tryProviders_replay (net : Network) (text : String) :
    ∀ (order : List String) (cache : List (String × TransResult)),
      (∀ x ∈ order, x = "libre" ∨ x = "mymemory") → order.Nodup →
      ∀ r, (tryProviders net text order cache).result = some r →
      (tryProviders net text order
        ((tryProviders net text order cache).cache)).result = some r := by
  intro order
  induction order with
  | nil => intro cache _ _ r hres; simp [tryProviders] at hres
  | cons q rest ih =>
    intro cache hsub hnd r hres
    have hqrest : q ∉ rest := (List.nodup_cons.mp hnd).1
    have hndr : rest.Nodup := (List.nodup_cons.mp hnd).2
    have hsubr : ∀ x ∈ rest, x = "libre" ∨ x = "mymemory" :=
      fun x hx => hsub x (List.mem_cons_of_mem q hx)
    have hq : q = "libre" ∨ q = "mymemory" := hsub q (List.mem_cons_self q rest)
    unfold tryProviders at hres
    rcases hget : mapGet cache (cacheKey q text) with _ | cached <;>
      rw [hget] at hres <;> dsimp only [] at hres
    · have hgq2 : mapGet (tryProviders net text rest cache).cache (cacheKey q text) = none := by
        rcases tryProviders_cache_change net text rest cache hndr with hunch |
          ⟨p, rp, hp, _, _, _, hcache, _, _⟩
        · rw [hunch]; exact hget
        · rw [hcache]
          have hpq : p ≠ q := fun he => hqrest (he ▸ hp)
          have hkey : cacheKey p text ≠ cacheKey q text :=
            cacheKey_ne_of_ne text text (hsubr p hp) hq hpq
          simp only [mapGet, if_neg hkey]
          exact hget
      rcases hcall : (callProvider net q text).1 with _ | r0 <;>
        rw [hcall] at hres <;> dsimp only [] at hres
      · have hrun1 : tryProviders net text (q :: rest) cache =
            { result := (tryProviders net text rest cache).result,
              cache := (tryProviders net text rest cache).cache,
              calls := (callProvider net q text).2 ++ (tryProviders net text rest cache).calls } := by
          simp only [tryProviders]
          rw [hget]
          dsimp only []
          rw [hcall]
        rw [hrun1]
        simp only [tryProviders]
        rw [hgq2]
        dsimp only []
        rw [hcall]
        dsimp only []
        exact ih cache hsubr hndr r hres
      · by_cases he : r0.translation = ""
        · rw [if_pos he] at hres
          dsimp only [] at hres
          have hrun1 : tryProviders net text (q :: rest) cache =
              { result := (tryProviders net text rest cache).result,
                cache := (tryProviders net text rest cache).cache,
                calls := (callProvider net q text).2 ++ (tryProviders net text rest cache).calls } := by
            simp only [tryProviders]
            rw [hget]
            dsimp only []
            rw [hcall]
            dsimp only []
            rw [if_pos he]
          rw [hrun1]
          simp only [tryProviders]
          rw [hgq2]
          dsimp only []
          rw [hcall]
          dsimp only []
          rw [if_pos he]
          dsimp only []
          exact ih cache hsubr hndr r hres
        · rw [if_neg he] at hres
          dsimp only [] at hres
          have hrun1 : tryProviders net text (q :: rest) cache =
              { result := some r0, cache := (cacheKey q text, r0) :: cache,
                calls := (callProvider net q text).2 } := by
            simp only [tryProviders]
            rw [hget]
            dsimp only []
            rw [hcall]
            dsimp only []
            rw [if_neg he]
          rw [hrun1]
          simp only [tryProviders]
          simp only [mapGet, if_pos rfl]
          exact hres
    · have hrun1 : tryProviders net text (q :: rest) cache =
          { result := some cached, cache := cache, calls := [] } := by
        simp only [tryProviders]
        rw [hget]
      rw [hrun1]
      simp only [tryProviders]
      rw [hget]
      dsimp only []
      exact hres

theorem countCallsTo_eq_zero (p : String) (calls : List NetCall)
    (h : ∀ c ∈ calls, callKey c ≠ p) : countCallsTo p calls = 0 := by
  unfold countCallsTo
  rw [List.length_eq_zero, List.filter_eq_nil_iff]
  intro c hc
  simp [h c hc]


theorem fetchDictionary_calls (net : Network) (word : String) :
    (fetchDictionary net word).2 = [NetCall.dictCall (jsToLower word)] := by
  unfold fetchDictionary
  dsimp only []
  split
  · rfl
  · split
    · rfl
    · split <;> try rfl
      split <;> rfl

theorem dictPhase_calls_keys (net : Network) (text : String) (isWord : Bool)
    (dcache : List (String × DictEntry)) :
    ∀ c ∈ (dictPhase net text isWord dcache).calls, callKey c = "DICT" := by
  intro c hc
  unfold dictPhase at hc
  by_cases hw : isWord
  · rw [if_pos hw] at hc
    try dsimp only [] at hc
    rcases hget : mapGet dcache ("DICT::" ++ jsToLower text) with _ | cached <;>
      rw [hget] at hc <;> try dsimp only [] at hc
    · have hcalls := fetchDictionary_calls net text
      rcases hf : (fetchDictionary net text).1 with e | r <;> rw [hf] at hc <;>
        try dsimp only [] at hc
      · rw [hcalls] at hc
        simp at hc
        simp [hc, callKey]
      · rcases r with _ | r <;> (try dsimp only [] at hc) <;> rw [hcalls] at hc <;>
          simp at hc <;> simp [hc, callKey]
    · simp at hc
  · rw [if_neg hw] at hc
    simp at hc

theorem getProvidersOrder_eq_cases (s : String) :
    getProvidersOrder s = ["libre"] ∨ getProvidersOrder s = ["mymemory"] ∨
    getProvidersOrder s = ["libre", "mymemory"] := by
  unfold getProvidersOrder
  split
  · exact Or.inl rfl
  · exact Or.inr (Or.inl rfl)
  · exact Or.inr (Or.inr rfl)

theorem getProvidersOrder_default {s : String}
    (h1 : s ≠ "libre") (h2 : s ≠ "mymemory") :
    getProvidersOrder s = ["libre", "mymemory"] := by
  unfold getProvidersOrder
  split
  · exact absurd rfl h1
  · exact absurd rfl h2
  · rfl

theorem getProvidersOrder_sub (s : String) :
    ∀ x ∈ getProvidersOrder s, x = "libre" ∨ x = "mymemory" := by
  rcases getProvidersOrder_eq_cases s with h | h | h <;> rw [h] <;> intro x hx <;>
    simp at hx
  · exact Or.inl hx
  · exact Or.inr hx
  · exact hx

theorem getProvidersOrder_nodup (s : String) : (getProvidersOrder s).Nodup := by
  rcases getProvidersOrder_eq_cases s with h | h | h <;> rw [h] <;> simp

theorem getProvidersOrder_count_le (s q : String) :
    (getProvidersOrder s).count q ≤ 1 := by
  rcases getProvidersOrder_eq_cases s with h | h | h <;> rw [h]
  · by_cases ha : "libre" = q <;> simp [List.count_cons, ha]
  · by_cases ha : "mymemory" = q <;> simp [List.count_cons, ha]
  · by_cases ha : "libre" = q <;> by_cases hb : "mymemory" = q
    · exact absurd (ha.trans hb.symm) (by decide)
    · simp [List.count_cons, ha, hb]
    · simp [List.count_cons, ha, hb]
    · simp [List.count_cons, ha, hb]

theorem handleTranslateAndDefine_eq (net : Network) (o : StorageOutcome)
    (st : CacheState) (msg : Msg) :
    handleTranslateAndDefine net o st msg =
      match (transPhase net o st msg).result with
      | none =>
        { result := { success := false, translation := none, provider := none,
                      dict := (dictPhaseOf net st msg).result,
                      error := some FIXED_FAIL_MSG },
          state := { translationCache := (transPhase net o st msg).cache,
                     dictCache := (dictPhaseOf net st msg).cache },
          calls := (transPhase net o st msg).calls ++ (dictPhaseOf net st msg).calls }
      | some r =>
        { result := { success := true, translation := some r.translation,
                      provider := some r.provider,
                      dict := (dictPhaseOf net st msg).result, error := none },
          state := { translationCache := (transPhase net o st msg).cache,
                     dictCache := (dictPhaseOf net st msg).cache },
          calls := (transPhase net o st msg).calls ++ (dictPhaseOf net st msg).calls } := rfl

/-- C6: the settings resolver is total (every storage outcome yields a
`Settings` value — the embedding of "never throws"), any read failure
resolves to the hardcoded default whose provider preference is `"auto"`, a
missing stored value resolves to the same default, and a malformed stored
value (falsy provider string, `NaN` rate) also resolves to the default.  The
resolver is a pure function of the read outcome: it has no side effect
beyond the read. -/
theorem settings_resolver_safe :
    (∀ o : StorageOutcome, ∃ s : Settings, getUserSettings o = s) ∧
    getUserSettings .readError = DEFAULT_SETTINGS ∧
    DEFAULT_SETTINGS.provider = "auto" ∧
    getUserSettings (.ok none) = DEFAULT_SETTINGS ∧
    getUserSettings (.ok (some
      { provider := some "", theme := none, ttsRate := some none,
        ttsVoice := none, showPronounce := none })) = DEFAULT_SETTINGS :=
  ⟨fun o => ⟨getUserSettings o, rfl⟩, rfl, rfl, rfl, rfl⟩

/-- C2: the provider preference maps to the ordered provider list exactly as
specified — `"libre"` to `[libre]`, `"mymemory"` to `[mymemory]`, `"auto"`
and every unknown value to `[libre, mymemory]` — and under preference
`"mymemory"` a request never calls LibreTranslate, even when MyMemory
fails. -/
theorem providers_order_spec :
    getProvidersOrder "auto" = ["libre", "mymemory"] ∧
    getProvidersOrder "libre" = ["libre"] ∧
    getProvidersOrder "mymemory" = ["mymemory"] ∧
    (∀ s, s ≠ "libre" → s ≠ "mymemory" →
      getProvidersOrder s = ["libre", "mymemory"]) ∧
    (∀ (net : Network) (o : StorageOutcome) (st : CacheState) (msg : Msg),
      (getUserSettings o).provider = "mymemory" →
      countCallsTo "libre" (handleTranslateAndDefine net o st msg).calls = 0) := by
  refine ⟨rfl, rfl, rfl, fun s h1 h2 => getProvidersOrder_default h1 h2, ?_⟩
  intro net o st msg hpref
  have ht : countCallsTo "libre" (transPhase net o st msg).calls = 0 := by
    have hle := tryProviders_count_le net msg.text "libre"
      (getProvidersOrder (getUserSettings o).provider) st.translationCache
    rw [hpref] at hle
    have hc : (getProvidersOrder "mymemory").count "libre" = 0 := by decide
    rw [hc] at hle
    unfold transPhase
    rw [hpref]
    exact Nat.le_zero.mp hle
  have hd : countCallsTo "libre" (dictPhaseOf net st msg).calls = 0 := by
    refine countCallsTo_eq_zero _ _ (fun c hc => ?_)
    unfold dictPhaseOf at hc
    rw [dictPhase_calls_keys net msg.text msg.isWord st.dictCache c hc]
    decide
  rw [handleTranslateAndDefine_eq]
  rcases hres : (transPhase net o st msg).result with _ | r <;> dsimp only [] <;>
    rw [countCallsTo_append, ht, hd]

/-- C2 witness: with stored preference `"mymemory"` and MyMemory down, the
request makes no LibreTranslate call. -/
theorem providers_order_spec_witness :
    ("auto" : String) ≠ "libre" ∧ ("auto" : String) ≠ "mymemory" ∧
    countCallsTo "libre" (handleTranslateAndDefine netAllDown
      (.ok (some { provider := some "mymemory", theme := none, ttsRate := none,
                   ttsVoice := none, showPronounce := none }))
      ⟨[], []⟩ ⟨"hi", true⟩).calls = 0 :=
  ⟨by decide, by decide,
    providers_order_spec.2.2.2.2 netAllDown
      (.ok (some { provider := some "mymemory", theme := none, ttsRate := none,
                   ttsVoice := none, showPronounce := none }))
      ⟨[], []⟩ ⟨"hi", true⟩ rfl⟩

/-- C9: for every `TRANSLATE_AND_DEFINE` message the listener sends exactly
one response: the orchestration result when its promise resolves, and the
fixed failure shape `{success: false, translation: null, provider: null,
dict: null, error: fixed message}` when the orchestration throws. -/
theorem listener_single_response :
    ∀ (run : Except Unit HandleResult) (text : String) (isWord : Bool),
      (∃ resp, onMessageListener (.typed "TRANSLATE_AND_DEFINE" text isWord) run
        = some resp) ∧
      (∀ r, run = .ok r →
        onMessageListener (.typed "TRANSLATE_AND_DEFINE" text isWord) run = some r) ∧
      (run = .error () →
        onMessageListener (.typed "TRANSLATE_AND_DEFINE" text isWord) run =
          some { success := false, translation := none, provider := none,
                 dict := none, error := some FIXED_FAIL_MSG }) := by
  intro run text isWord
  refine ⟨?_, ?_, ?_⟩
  · rcases run with e | r
    · exact ⟨fixedFailureResponse, rfl⟩
    · exact ⟨r, rfl⟩
  · intro r h
    subst h
    rfl
  · intro h
    subst h
    rfl

/-- C9 witness: a crashing orchestration still produces the fixed failure
response. -/
theorem listener_single_response_witness :
    onMessageListener (.typed "TRANSLATE_AND_DEFINE" "hello" true) (.error ()) =
      some { success := false, translation := none, provider := none,
             dict := none, error := some FIXED_FAIL_MSG } :=
  (listener_single_response (.error ()) "hello" true).2.2 rfl

/-- C8: an empty or whitespace-only selection is rejected by the trigger
before `chrome.runtime.sendMessage`: no message reaches the worker, so the
request performs no translation and no dictionary network call. -/
theorem empty_text_no_network (net : Network) (o : StorageOutcome)
    (st : CacheState) (selectionCollapsed debounced : Bool) (raw : String)
    (h : ∀ c ∈ raw.data, jsIsWhitespace c = true) :
    triggerTranslateFromSelection selectionCollapsed raw debounced = none ∧
    processSelection net o st selectionCollapsed raw debounced = none := by
  have htrim : jsTrim raw = "" := by
    unfold jsTrim
    have h1 : raw.data.dropWhile jsIsWhitespace = [] :=
      List.dropWhile_eq_nil_iff.mpr h
    rw [h1]
    rfl
  have htrig : triggerTranslateFromSelection selectionCollapsed raw debounced = none := by
    unfold triggerTranslateFromSelection
    by_cases hc : selectionCollapsed
    · rw [if_pos hc]
    · rw [if_neg hc]
      dsimp only []
      rw [htrim]
      rfl
  refine ⟨htrig, ?_⟩
  unfold processSelection
  rw [htrig]
  rfl

/-- C8 witness: a whitespace-only selection (including a no-break space and
an ideographic space) triggers nothing. -/
theorem empty_text_no_network_witness :
    triggerTranslateFromSelection false " \u00a0\t\u3000 " false = none ∧
    processSelection netAllDown (.ok none) ⟨[], []⟩ false " \u00a0\t\u3000 " false
      = none :=
  empty_text_no_network netAllDown (.ok none) ⟨[], []⟩ false false
    " \u00a0\t\u3000 " (by decide)

/-- C5: the dictionary parser realizes the spec's independent first-match
selection — the code's two scans equal the spec-side `find?`-based
selections, a response whose first entry's phonetics yield neither field
parses to `null`, and the spec's example
`[{text: ""}, {audio: "a.mp3"}, {text: "/tɛst/"}]` parses to
`{ipa: "/tɛst/", audioUrl: "a.mp3"}` with the fields taken from different
sub-entries. -/
theorem dictionary_first_match_extraction :
    (∀ ps, firstIpa ps = specIpa ps) ∧
    (∀ ps, firstAudio ps = specAudio ps) ∧
    (∀ (net : Network) (word : String) (e : DictApiEntry)
       (rest : List (Option DictApiEntry)) (ps : List (Option Phonetic)),
      net.dict (jsToLower word) = .response true (some (some e :: rest)) →
      e.phonetics = some ps →
      (fetchDictionary net word).1 =
        (match specIpa ps, specAudio ps with
         | none, none => Except.ok none
         | i, a => Except.ok (some { ipa := i, audio := a }))) ∧
    (fetchDictionary netDictExample "test").1 =
      .ok (some { ipa := some "/tɛst/", audio := some "a.mp3" }) := by
  have hipa : ∀ ps, firstIpa ps = specIpa ps := by
    intro ps
    induction ps with
    | nil => rfl
    | cons hd tl ih =>
      match hd with
      | none => simp [firstIpa, specIpa, List.find?_cons, hasIpaText, ih]
      | some q =>
        match hq : q.text with
        | none => simp [firstIpa, specIpa, List.find?_cons, hasIpaText, hq, ih]
        | some s =>
          by_cases hs : jsTrim s = ""
          · simp [firstIpa, specIpa, List.find?_cons, hasIpaText, hq, hs, ih]
          · simp [firstIpa, specIpa, List.find?_cons, hasIpaText, hq, hs, ih]
  have haudio : ∀ ps, firstAudio ps = specAudio ps := by
    intro ps
    induction ps with
    | nil => rfl
    | cons hd tl ih =>
      match hd with
      | none => simp [firstAudio, specAudio, List.find?_cons, hasAudioUrl, ih]
      | some q =>
        match hq : q.audio with
        | none => simp [firstAudio, specAudio, List.find?_cons, hasAudioUrl, hq, ih]
        | some s =>
          by_cases hs : jsTrim s = ""
          · simp [firstAudio, specAudio, List.find?_cons, hasAudioUrl, hq, hs, ih]
          · simp [firstAudio, specAudio, List.find?_cons, hasAudioUrl, hq, hs, ih]
  refine ⟨hipa, haudio, ?_, rfl⟩
  intro net word e rest ps hnet hph
  unfold fetchDictionary
  dsimp only []
  rw [hnet]
  dsimp only []
  rw [hph]
  dsimp only [Option.getD]
  rw [hipa, haudio]
  simp only [Bool.not_true]
  rw [if_neg (by decide : ¬(false = true))]
  rcases specIpa ps with _ | i <;> rcases specAudio ps with _ | a <;> rfl

/-- C5 witness: the example response instantiates the first-match rule, the
two fields coming from different sub-entries. -/
theorem dictionary_first_match_extraction_witness :
    (fetchDictionary netDictExample "test").1 =
      (match specIpa [some ⟨some "", none⟩, some ⟨none, some "a.mp3"⟩,
                      some ⟨some "/tɛst/", none⟩],
             specAudio [some ⟨some "", none⟩, some ⟨none, some "a.mp3"⟩,
                      some ⟨some "/tɛst/", none⟩] with
       | none, none => Except.ok none
       | i, a => Except.ok (some { ipa := i, audio := a })) :=
  dictionary_first_match_extraction.2.2.1 netDictExample "test"
    ⟨some [some ⟨some "", none⟩, some ⟨none, some "a.mp3"⟩,
           some ⟨some "/tɛst/", none⟩]⟩ []
    [some ⟨some "", none⟩, some ⟨none, some "a.mp3"⟩, some ⟨some "/tɛst/", none⟩]
    rfl rfl

/-- C1: a request's `success` field is exactly the translation phase's
outcome; when every provider fails the response is the fixed failure shape
with the dictionary result still attached; and the attached `dict` is always
the dictionary phase's result, so its absence or failure never affects
`success`. -/
theorem translation_determines_success (net : Network) (o : StorageOutcome)
    (st : CacheState) (msg : Msg) :
    ((handleTranslateAndDefine net o st msg).result.success =
      (transPhase net o st msg).result.isSome) ∧
    ((handleTranslateAndDefine net o st msg).result.dict =
      (dictPhaseOf net st msg).result) ∧
    ((transPhase net o st msg).result = none →
      (handleTranslateAndDefine net o st msg).result =
        { success := false, translation := none, provider := none,
          dict := (dictPhaseOf net st msg).result,
          error := some FIXED_FAIL_MSG }) := by
  rw [handleTranslateAndDefine_eq]
  rcases hres : (transPhase net o st msg).result with _ | r <;> dsimp only []
  · exact ⟨rfl, rfl, fun _ => rfl⟩
  · exact ⟨rfl, rfl, fun h => Option.noConfusion h⟩

/-- C1 witness: with both providers down and the dictionary up, the request
fails with the fixed message while `dict` is populated. -/
theorem translation_determines_success_witness :
    (handleTranslateAndDefine netDictOnly (.ok none) ⟨[], []⟩ ⟨"hello", true⟩).result =
      { success := false, translation := none, provider := none,
        dict := (dictPhaseOf netDictOnly ⟨[], []⟩ ⟨"hello", true⟩).result,
        error := some FIXED_FAIL_MSG } ∧
    (dictPhaseOf netDictOnly ⟨[], []⟩ ⟨"hello", true⟩).result =
      some { ipa := some "/x/", audio := none } :=
  ⟨(translation_determines_success netDictOnly (.ok none) ⟨[], []⟩
      ⟨"hello", true⟩).2.2 rfl, rfl⟩

/-- C7: when `isWord` is false no dictionary work happens at all (no lookup,
no cache write, no network call); when `isWord` is true and the lookup
fails — thrown error or a no-entry response — the request proceeds with
`dict = null`, nothing is stored in the dictionary cache, and `success` is
still exactly the translation phase's outcome. -/
theorem dictionary_failure_isolated (net : Network) (o : StorageOutcome)
    (st : CacheState) (msg : Msg) :
    (msg.isWord = false →
      (handleTranslateAndDefine net o st msg).result.dict = none ∧
      (handleTranslateAndDefine net o st msg).state.dictCache = st.dictCache ∧
      countCallsTo "DICT" (handleTranslateAndDefine net o st msg).calls = 0) ∧
    (msg.isWord = true →
      mapGet st.dictCache ("DICT::" ++ jsToLower msg.text) = none →
      ((fetchDictionary net msg.text).1 = .error () ∨
       (fetchDictionary net msg.text).1 = .ok none) →
      (handleTranslateAndDefine net o st msg).result.dict = none ∧
      (handleTranslateAndDefine net o st msg).state.dictCache = st.dictCache) ∧
    ((handleTranslateAndDefine net o st msg).result.success =
      (transPhase net o st msg).result.isSome) := by
  have hproj : (handleTranslateAndDefine net o st msg).result.dict =
      (dictPhaseOf net st msg).result ∧
      (handleTranslateAndDefine net o st msg).state.dictCache =
        (dictPhaseOf net st msg).cache ∧
      (handleTranslateAndDefine net o st msg).calls =
        (transPhase net o st msg).calls ++ (dictPhaseOf net st msg).calls ∧
      (handleTranslateAndDefine net o st msg).result.success =
        (transPhase net o st msg).result.isSome := by
    rw [handleTranslateAndDefine_eq]
    rcases hres : (transPhase net o st msg).result with _ | r <;> dsimp only [] <;>
      exact ⟨rfl, rfl, rfl, rfl⟩
  refine ⟨?_, ?_, hproj.2.2.2⟩
  · intro hw
    have hdict : dictPhaseOf net st msg =
        { result := none, cache := st.dictCache, calls := [] } := by
      unfold dictPhaseOf dictPhase
      rw [hw]
      rfl
    have ht : countCallsTo "DICT" (transPhase net o st msg).calls = 0 :=
      countCallsTo_eq_zero _ _ (fun c hc => by
        rcases tryProviders_calls_keys net msg.text
          (getProvidersOrder (getUserSettings o).provider) st.translationCache c hc
          with h | h <;> rw [h] <;> decide)
    refine ⟨by rw [hproj.1, hdict], by rw [hproj.2.1, hdict], ?_⟩
    rw [hproj.2.2.1, hdict, countCallsTo_append, ht]
    rfl
  · intro hw hmiss hfail
    have hdict : dictPhaseOf net st msg =
        { result := none, cache := st.dictCache,
          calls := (fetchDictionary net msg.text).2 } := by
      unfold dictPhaseOf dictPhase
      rw [hw]
      dsimp only []
      rw [hmiss]
      dsimp only []
      rcases hfail with h | h <;> rw [h] <;> rfl
    exact ⟨by rw [hproj.1, hdict], by rw [hproj.2.1, hdict]⟩

/-- C7 witness: a dictionary network failure on a word request leaves
`dict = null` and the dictionary cache empty. -/
theorem dictionary_failure_isolated_witness :
    (handleTranslateAndDefine netAllDown (.ok none) ⟨[], []⟩
      ⟨"Hello", true⟩).result.dict = none ∧
    (handleTranslateAndDefine netAllDown (.ok none) ⟨[], []⟩
      ⟨"Hello", true⟩).state.dictCache = [] :=
  (dictionary_failure_isolated netAllDown (.ok none) ⟨[], []⟩
    ⟨"Hello", true⟩).2.1 rfl rfl (Or.inl rfl)

theorem transPhase_eq (net : Network) (o : StorageOutcome) (st : CacheState)
    (msg : Msg) :
    transPhase net o st msg =
      tryProviders net msg.text (getProvidersOrder (getUserSettings o).provider)
        st.translationCache := rfl

/-- C10: every entry the request adds to the translation cache is the result
of a successful provider call with a non-empty translation, stored under
that provider's key for the request's text; and when every provider fails
the translation cache is left unchanged, so rerunning the translation phase
on the post-request cache behaves exactly as the first run (the retry
re-attempts the network). -/
theorem translation_cache_integrity (net : Network) (o : StorageOutcome)
    (st : CacheState) (msg : Msg) :
    (∀ e ∈ (handleTranslateAndDefine net o st msg).state.translationCache,
      e ∈ st.translationCache ∨
      ∃ p r, p ∈ getProvidersOrder (getUserSettings o).provider ∧
        mapGet st.translationCache (cacheKey p msg.text) = none ∧
        (callProvider net p msg.text).1 = some r ∧ r.translation ≠ "" ∧
        e = (cacheKey p msg.text, r)) ∧
    ((transPhase net o st msg).result = none →
      (handleTranslateAndDefine net o st msg).state.translationCache
        = st.translationCache ∧
      tryProviders net msg.text (getProvidersOrder (getUserSettings o).provider)
        (handleTranslateAndDefine net o st msg).state.translationCache
        = transPhase net o st msg) := by
  have hstate : (handleTranslateAndDefine net o st msg).state.translationCache =
      (transPhase net o st msg).cache := by
    rw [handleTranslateAndDefine_eq]
    rcases hres : (transPhase net o st msg).result with _ | r <;> dsimp only []
  have hcc := tryProviders_cache_change net msg.text
    (getProvidersOrder (getUserSettings o).provider) st.translationCache
    (getProvidersOrder_nodup _)
  rw [← transPhase_eq] at hcc
  constructor
  · intro e he
    rw [hstate] at he
    rcases hcc with hunch | ⟨p, r, hp, hnone, hcall, hne, hcache, _, _⟩
    · rw [hunch] at he
      exact Or.inl he
    · rw [hcache] at he
      rcases List.mem_cons.mp he with he | he
      · exact Or.inr ⟨p, r, hp, hnone, hcall, hne, he⟩
      · exact Or.inl he
  · intro hres
    rcases hcc with hunch | ⟨p, r, _, _, _, _, _, hr, _⟩
    · constructor
      · rw [hstate, hunch]
      · rw [hstate, hunch]
        rfl
    · rw [hres] at hr
      exact Option.noConfusion hr

/-- C10 witness: after a request in which every provider failed, the
translation cache is unchanged (empty) and the translation phase replays
identically. -/
theorem translation_cache_integrity_witness :
    (handleTranslateAndDefine netAllDown (.ok none) ⟨[], []⟩
      ⟨"hi", false⟩).state.translationCache = [] ∧
    tryProviders netAllDown "hi"
      (getProvidersOrder (getUserSettings (.ok none)).provider)
      (handleTranslateAndDefine netAllDown (.ok none) ⟨[], []⟩
        ⟨"hi", false⟩).state.translationCache
      = transPhase netAllDown (.ok none) ⟨[], []⟩ ⟨"hi", false⟩ :=
  (translation_cache_integrity netAllDown (.ok none) ⟨[], []⟩ ⟨"hi", false⟩).2 rfl

theorem dictPhase_calls_len (net : Network) (text : String) (isWord : Bool)
    (dcache : List (String × DictEntry)) :
    (dictPhase net text isWord dcache).calls.length ≤ 1 := by
  unfold dictPhase
  by_cases hw : isWord
  · rw [if_pos hw]
    dsimp only []
    rcases hget : mapGet dcache ("DICT::" ++ jsToLower text) with _ | c <;>
      try dsimp only []
    · rcases hf : (fetchDictionary net text).1 with e | r <;> try dsimp only []
      · rw [fetchDictionary_calls]
        simp
      · rcases r with _ | r <;> (try dsimp only []) <;> rw [fetchDictionary_calls] <;> simp
    · simp
  · rw [if_neg hw]
    simp

theorem dictPhase_count_le (net : Network) (text : String) (isWord : Bool)
    (dcache : List (String × DictEntry)) (p : String) :
    countCallsTo p (dictPhase net text isWord dcache).calls ≤ 1 :=
  le_trans (List.length_filter_le _ _) (dictPhase_calls_len net text isWord dcache)

/-- C4: within a single request every provider key is called at most once
(dictionary included), and whenever the primary provider succeeds — by
cache hit over a well-formed cache, or by a successful network call — the
response carries the primary provider's display name, `success` is true,
and no other translation provider is called. -/
theorem provider_traversal_at_most_once (net : Network) (o : StorageOutcome)
    (st : CacheState) (msg : Msg) :
    (∀ p, countCallsTo p (handleTranslateAndDefine net o st msg).calls ≤ 1) ∧
    (∀ p rest, getProvidersOrder (getUserSettings o).provider = p :: rest →
      transCacheWF st.translationCache →
      msg.text ≠ "" →
      (mapGet st.translationCache (cacheKey p msg.text) ≠ none ∨
        (callProvider net p msg.text).1.isSome = true) →
      (handleTranslateAndDefine net o st msg).result.provider =
        some (providerDisplay p) ∧
      (handleTranslateAndDefine net o st msg).result.success = true ∧
      (∀ q, (q = "libre" ∨ q = "mymemory") → q ≠ p →
        countCallsTo q (handleTranslateAndDefine net o st msg).calls = 0)) := by
  have hcalls : (handleTranslateAndDefine net o st msg).calls =
      (transPhase net o st msg).calls ++ (dictPhaseOf net st msg).calls := by
    rw [handleTranslateAndDefine_eq]
    rcases hres : (transPhase net o st msg).result with _ | r <;> dsimp only []
  have hok : ∀ r, (transPhase net o st msg).result = some r →
      (handleTranslateAndDefine net o st msg).result.provider = some r.provider ∧
      (handleTranslateAndDefine net o st msg).result.success = true := by
    intro r hr
    rw [handleTranslateAndDefine_eq, hr]
    exact ⟨rfl, rfl⟩
  constructor
  · intro p
    rw [hcalls, countCallsTo_append]
    by_cases hp : p = "DICT"
    · have ht : countCallsTo p (transPhase net o st msg).calls = 0 :=
        countCallsTo_eq_zero _ _ (fun c hc => by
          rcases tryProviders_calls_keys net msg.text
            (getProvidersOrder (getUserSettings o).provider) st.translationCache c hc
            with h | h <;> rw [h, hp] <;> decide)
      have hd : countCallsTo p (dictPhaseOf net st msg).calls ≤ 1 :=
        dictPhase_count_le net msg.text msg.isWord st.dictCache p
      omega
    · have hd : countCallsTo p (dictPhaseOf net st msg).calls = 0 :=
        countCallsTo_eq_zero _ _ (fun c hc => by
          rw [dictPhase_calls_keys net msg.text msg.isWord st.dictCache c hc]
          exact fun h => hp h.symm)
      have ht : countCallsTo p (transPhase net o st msg).calls ≤ 1 := by
        rw [transPhase_eq]
        exact le_trans
          (tryProviders_count_le net msg.text p
            (getProvidersOrder (getUserSettings o).provider) st.translationCache)
          (getProvidersOrder_count_le _ p)
      omega
  · intro p rest horder hwf htext hsucc
    have hpmem : p = "libre" ∨ p = "mymemory" :=
      getProvidersOrder_sub _ p (by rw [horder]; exact List.mem_cons_self p rest)
    have ht := transPhase_eq net o st msg
    rw [horder] at ht
    have hd0 : ∀ q, q ≠ "DICT" → countCallsTo q (dictPhaseOf net st msg).calls = 0 :=
      fun q hq => countCallsTo_eq_zero _ _ (fun c hc => by
        rw [dictPhase_calls_keys net msg.text msg.isWord st.dictCache c hc]
        exact fun h => hq h.symm)
    rcases hget : mapGet st.translationCache (cacheKey p msg.text) with _ | cached
    · rcases hsucc with hhit | hcall
      · exact absurd hget hhit
      · obtain ⟨r, hr⟩ := Option.isSome_iff_exists.mp hcall
        have hres := callProvider_result hr
        have htr : transPhase net o st msg =
            { result := some r,
              cache := (cacheKey p msg.text, r) :: st.translationCache,
              calls := (callProvider net p msg.text).2 } := by
          rw [ht]
          simp only [tryProviders]
          rw [hget]
          dsimp only []
          rw [hr]
          dsimp only []
          rw [if_neg hres.2]
        have hsome : (transPhase net o st msg).result = some r := by rw [htr]
        refine ⟨?_, (hok r hsome).2, ?_⟩
        · rw [(hok r hsome).1, hres.1]
        · intro q hq hqp
          have hqd : q ≠ "DICT" := by
            rcases hq with h | h <;> subst h <;> decide
          rw [hcalls, countCallsTo_append, hd0 q hqd, htr]
          dsimp only []
          rw [callProvider_count_other hqp]
    · have hcprops : cached.provider = providerDisplay p ∧ cached.translation ≠ "" := by
        rcases hpmem with hp | hp <;> subst hp
        · exact ⟨by rw [((hwf msg.text cached).1 hget).1]; rfl,
            ((hwf msg.text cached).1 hget).2⟩
        · exact ⟨by rw [((hwf msg.text cached).2 hget).1]; rfl,
            ((hwf msg.text cached).2 hget).2⟩
      have htr : transPhase net o st msg =
          { result := some cached, cache := st.translationCache, calls := [] } := by
        rw [ht]
        simp only [tryProviders]
        rw [hget]
      have hsome : (transPhase net o st msg).result = some cached := by rw [htr]
      refine ⟨?_, (hok cached hsome).2, ?_⟩
      · rw [(hok cached hsome).1, hcprops.1]
      · intro q hq hqp
        have hqd : q ≠ "DICT" := by
          rcases hq with h | h <;> subst h <;> decide
        rw [hcalls, countCallsTo_append, hd0 q hqd, htr]
        rfl

/-- C4 witness: with the default order and LibreTranslate answering, the
result names LibreTranslate and MyMemory is never called. -/
theorem provider_traversal_at_most_once_witness :
    (handleTranslateAndDefine netLibreUp (.ok none) ⟨[], []⟩
      ⟨"hello", false⟩).result.provider = some (providerDisplay "libre") ∧
    (handleTranslateAndDefine netLibreUp (.ok none) ⟨[], []⟩
      ⟨"hello", false⟩).result.success = true ∧
    countCallsTo "mymemory" (handleTranslateAndDefine netLibreUp (.ok none)
      ⟨[], []⟩ ⟨"hello", false⟩).calls = 0 := by
  have h := (provider_traversal_at_most_once netLibreUp (.ok none) ⟨[], []⟩
      ⟨"hello", false⟩).2 "libre" ["mymemory"] rfl
    (fun t r => ⟨fun hh => by simp [mapGet] at hh, fun hh => by simp [mapGet] at hh⟩)
    (by decide) (Or.inr rfl)
  exact ⟨h.1, h.2.1, h.2.2 "mymemory" (Or.inr rfl) (by decide)⟩

/-- C3 counterexample: when the provider fails, nothing is cached, so two
identical requests issue two network calls to LibreTranslate — not exactly
one as the claim states for every pair of identical requests. -/
theorem cache_idempotence_counterexample :
    countCallsTo "libre"
      ((handleTranslateAndDefine netAllDown (.ok none) ⟨[], []⟩
        ⟨"hi", false⟩).calls ++
       (handleTranslateAndDefine netAllDown (.ok none)
         (handleTranslateAndDefine netAllDown (.ok none) ⟨[], []⟩
           ⟨"hi", false⟩).state ⟨"hi", false⟩).calls) = 2 := rfl

/-- C3 (amended): a key present in the translation cache is served without
any network call to its provider (and when that provider is primary the
cached result is returned verbatim); and when the first request freshly
caches a provider's result — i.e. the provider's call succeeded — that
request made exactly one call to the provider, an identical second request
makes none (one call across both), and both requests return the same
successful translation and provider.  When the provider's call fails,
nothing is cached and a retry calls the network again. -/
theorem cache_idempotence_amended (net : Network) (o : StorageOutcome)
    (st : CacheState) (msg : Msg) (p : String)
    (hp : p = "libre" ∨ p = "mymemory") :
    (∀ r0, mapGet st.translationCache (cacheKey p msg.text) = some r0 →
      countCallsTo p (handleTranslateAndDefine net o st msg).calls = 0 ∧
      (∀ rest, getProvidersOrder (getUserSettings o).provider = p :: rest →
        (handleTranslateAndDefine net o st msg).result.translation =
          some r0.translation ∧
        (handleTranslateAndDefine net o st msg).result.provider =
          some r0.provider)) ∧
    (mapGet st.translationCache (cacheKey p msg.text) = none →
     mapGet (handleTranslateAndDefine net o st msg).state.translationCache
       (cacheKey p msg.text) ≠ none →
      countCallsTo p (handleTranslateAndDefine net o st msg).calls = 1 ∧
      countCallsTo p (handleTranslateAndDefine net o
        (handleTranslateAndDefine net o st msg).state msg).calls = 0 ∧
      (handleTranslateAndDefine net o
        (handleTranslateAndDefine net o st msg).state msg).result.translation =
        (handleTranslateAndDefine net o st msg).result.translation ∧
      (handleTranslateAndDefine net o
        (handleTranslateAndDefine net o st msg).state msg).result.provider =
        (handleTranslateAndDefine net o st msg).result.provider ∧
      (handleTranslateAndDefine net o st msg).result.success = true ∧
      (handleTranslateAndDefine net o
        (handleTranslateAndDefine net o st msg).state msg).result.success = true) := by
  have hpd : p ≠ "DICT" := by rcases hp with h | h <;> subst h <;> decide
  have hcalls1 : ∀ (st' : CacheState),
      (handleTranslateAndDefine net o st' msg).calls =
      (transPhase net o st' msg).calls ++ (dictPhaseOf net st' msg).calls := by
    intro st'
    rw [handleTranslateAndDefine_eq]
    rcases hres : (transPhase net o st' msg).result with _ | r <;> dsimp only []
  have hstate1 : (handleTranslateAndDefine net o st msg).state.translationCache =
      (transPhase net o st msg).cache := by
    rw [handleTranslateAndDefine_eq]
    rcases hres : (transPhase net o st msg).result with _ | r <;> dsimp only []
  have hd0 : ∀ (st' : CacheState),
      countCallsTo p (dictPhaseOf net st' msg).calls = 0 :=
    fun st' => countCallsTo_eq_zero _ _ (fun c hc => by
      rw [dictPhase_calls_keys net msg.text msg.isWord st'.dictCache c hc]
      exact fun h => hpd h.symm)
  have hok : ∀ (st' : CacheState) r,
      (transPhase net o st' msg).result = some r →
      (handleTranslateAndDefine net o st' msg).result.translation =
        some r.translation ∧
      (handleTranslateAndDefine net o st' msg).result.provider = some r.provider ∧
      (handleTranslateAndDefine net o st' msg).result.success = true := by
    intro st' r hr
    rw [handleTranslateAndDefine_eq, hr]
    exact ⟨rfl, rfl, rfl⟩
  constructor
  · intro r0 hhit
    constructor
    · rw [hcalls1 st, countCallsTo_append, hd0 st]
      rw [transPhase_eq]
      rw [tryProviders_hit_no_call net msg.text p _ st.translationCache hhit]
    · intro rest horder
      have htr : transPhase net o st msg =
          { result := some r0, cache := st.translationCache, calls := [] } := by
        rw [transPhase_eq, horder]
        simp only [tryProviders]
        rw [hhit]
      have hsome : (transPhase net o st msg).result = some r0 := by rw [htr]
      exact ⟨(hok st r0 hsome).1, (hok st r0 hsome).2.1⟩
  · intro hfresh hcached
    have hcc := tryProviders_cache_change net msg.text
      (getProvidersOrder (getUserSettings o).provider) st.translationCache
      (getProvidersOrder_nodup _)
    rw [← transPhase_eq] at hcc
    rcases hcc with hunch | ⟨q, r, hq, hnone, hcall, hne, hcache, hres, hcount⟩
    · rw [hstate1, hunch] at hcached
      exact (hcached hfresh).elim
    · have hqlm : q = "libre" ∨ q = "mymemory" := getProvidersOrder_sub _ q hq
      have hkeyeq : cacheKey q msg.text = cacheKey p msg.text := by
        by_contra hne'
        rw [hstate1, hcache] at hcached
        simp only [mapGet, if_neg hne'] at hcached
        exact hcached hfresh
      have hqp : q = p := by
        by_contra hqp
        exact (cacheKey_ne_of_ne msg.text msg.text hqlm hp hqp) hkeyeq
      subst hqp
      have hhit2 : mapGet
          (handleTranslateAndDefine net o st msg).state.translationCache
          (cacheKey q msg.text) = some r := by
        rw [hstate1, hcache]
        simp [mapGet]
      have hsome2 : (transPhase net o
          (handleTranslateAndDefine net o st msg).state msg).result = some r := by
        have hreplay := tryProviders_replay net msg.text
          (getProvidersOrder (getUserSettings o).provider) st.translationCache
          (getProvidersOrder_sub _) (getProvidersOrder_nodup _) r
          (by rw [← transPhase_eq]; exact hres)
        rw [transPhase_eq, hstate1, transPhase_eq net o st msg]
        exact hreplay
      refine ⟨?_, ?_, ?_, ?_, (hok st r hres).2.2, (hok _ r hsome2).2.2⟩
      · rw [hcalls1 st, countCallsTo_append, hd0 st]
        rw [transPhase_eq] at hcount
        rw [transPhase_eq, hcount]
      · rw [hcalls1 _, countCallsTo_append, hd0 _, transPhase_eq]
        rw [tryProviders_hit_no_call net msg.text q _ _ hhit2]
      · rw [(hok _ r hsome2).1, (hok st r hres).1]
      · rw [(hok _ r hsome2).2.1, (hok st r hres).2.1]

/-- C3 witness: LibreTranslate answering once is cached; the identical
second request makes no further LibreTranslate call. -/
theorem cache_idempotence_amended_witness :
    countCallsTo "libre" (handleTranslateAndDefine netLibreUp (.ok none)
      ⟨[], []⟩ ⟨"hello", false⟩).calls = 1 ∧
    countCallsTo "libre" (handleTranslateAndDefine netLibreUp (.ok none)
      (handleTranslateAndDefine netLibreUp (.ok none) ⟨[], []⟩
        ⟨"hello", false⟩).state ⟨"hello", false⟩).calls = 0 :=
  have h := (cache_idempotence_amended netLibreUp (.ok none) ⟨[], []⟩
    ⟨"hello", false⟩ "libre" (Or.inl rfl)).2 rfl (by decide)
  ⟨h.1, h.2.1⟩
